import Mathlib

/-!
# Vincenzo daemon supervisor — verification development

A shallow embedding of the Vincenzo BitTorrent daemon supervisor
(`crates/vincenzo/src/daemon.rs`) and of its control-wire codec, together
with theorems about the registry invariants, auto-quit policy, error
handling and codec round-trip.

The supervisor's command handler (`Daemon::run`'s `select!` arm on the
internal mpsc channel) is embedded as a pure step function on an explicit
daemon state.  Hash maps become association lists with the usual
insert/lookup semantics; channel sends become explicit output lists; a
Rust panic (an `unwrap()` on `None`) is modelled as the step function
returning `none`.
-/

namespace Vincenzo

/-- 20-byte torrent identifier (`[u8; 20]` in the source); modelled as a
list of byte values. -/
abbrev InfoHash := List Nat

/-- Modelled from the spec: `torrent.rs` is not part of the supervisor
sources; §3 of the spec lists the torrent status values
`{Idle, ConnectingToTracker, Downloading, Seeding, Paused, Error}`. -/
inductive TorrentStatus
  | idle
  | connectingToTracker
  | downloading
  | seeding
  | paused
  | error
deriving DecidableEq, Repr

/-- Modelled from the spec: seeder/leecher counters of a torrent
(`stats: { seeders: u32, leechers: u32 }` in §3). -/
structure Stats where
  seeders : Nat
  leechers : Nat
deriving DecidableEq, Repr

/-- Modelled from the spec: the `TorrentState` snapshot published by a
torrent worker (§3); `torrent.rs` is not part of the supervisor sources.
Machine integers (`u64`/`u32`) are modelled as `Nat` with explicit bounds
where a claim needs them. -/
structure TorrentState where
  info_hash : InfoHash
  name : List Nat
  status : TorrentStatus
  size : Nat
  downloaded : Nat
  uploaded : Nat
  download_rate : Nat
  upload_rate : Nat
  stats : Stats
deriving DecidableEq, Repr

/-- The `..Default::default()` record used by `Daemon::add_torrent`.
Modelled from the spec: the default/initial state (§3, §4.4 — "it may be
the default/initial state"). -/
def defaultTorrentState : TorrentState :=
  { info_hash := []
    name := []
    status := TorrentStatus.idle
    size := 0
    downloaded := 0
    uploaded := 0
    download_rate := 0
    upload_rate := 0
    stats := { seeders := 0, leechers := 0 } }

/-- Modelled from the spec: magnet parsing is out of scope (§1); a parsed
magnet exposes its info hash (`parse_xt`) and display name (`parse_dn`). -/
structure Magnet where
  xt : InfoHash
  dn : List Nat
deriving DecidableEq, Repr

/-- `Magnet::parse_xt` — the info hash of the magnet. -/
def Magnet.parse_xt (m : Magnet) : InfoHash := m.xt

/-- `Magnet::parse_dn` — the display name of the magnet. -/
def Magnet.parse_dn (m : Magnet) : List Nat := m.dn

/-- The error kinds of the core (`error.rs` is not among the supervisor
sources; the variants used by `daemon.rs` and listed in spec §7). -/
inductive Error
  | noDuplicateTorrent
  | torrentDoesNotExist
  | bindFailure
  | sendErrorTcp
  | malformedFrame
  | invalidMagnet
deriving DecidableEq, Repr

/-- Commands a torrent worker accepts on its `TorrentCtx` channel (only
the variants the daemon sends). -/
inductive TorrentMsg
  | togglePause
  | quit
deriving DecidableEq, Repr

/-- Internal daemon commands (`DaemonMsg` in `daemon.rs`).  The oneshot
reply channel of `RequestTorrentState` is modelled as a step output; the
peer list of `AddTorrentWithPeers` only selects the worker start mode and
never reaches the registries, so it is kept as an opaque list.  A
`TorrentCtx` handle is modelled as a channel identifier (`Nat`). -/
inductive DaemonMsg
  | addTorrent (magnet : Magnet)
  | addTorrentWithPeers (magnet : Magnet) (peers : List Nat)
  | torrentState (s : TorrentState)
  | requestTorrentState (info_hash : InfoHash)
  | togglePause (info_hash : InfoHash)
  | quit
  | printTorrentStatus
  | mutateTorrent (info_hash : InfoHash) (c : Nat)
deriving DecidableEq, Repr

/-- `DaemonConfig` (`daemon.rs`): listen address and download directory
are opaque to the command handler; only `quit_after_complete` matters. -/
structure DaemonConfig where
  listen : Nat
  download_dir : List Nat
  quit_after_complete : Bool
deriving DecidableEq, Repr

/-- Association-list lookup, the embedding of `HashMap::get`. -/
def regLookup {V : Type} : List (InfoHash × V) → InfoHash → Option V
  | [], _ => none
  | (k', v') :: t, k => if k' = k then some v' else regLookup t k

/-- Association-list insert-or-replace, the embedding of
`HashMap::insert` (also covers `*get_mut(..) = v`). -/
def regInsert {V : Type} (k : InfoHash) (v : V) :
    List (InfoHash × V) → List (InfoHash × V)
  | [] => [(k, v)]
  | (k', v') :: t => if k' = k then (k, v) :: t else (k', v') :: regInsert k v t

/-- The registries of `DaemonCtx` plus the supply of fresh worker-handle
identifiers (`Torrent::new` creates a fresh `TorrentCtx` on each
admission). -/
structure DaemonState where
  torrent_states : List (InfoHash × TorrentState)
  torrent_ctxs : List (InfoHash × Nat)
  next_ctx : Nat
deriving DecidableEq, Repr

/-- The registries `Daemon::new` starts from: both empty. -/
def emptyDaemon : DaemonState :=
  { torrent_states := [], torrent_ctxs := [], next_ctx := 0 }

/-- `Daemon::add_torrent` (daemon.rs lines 364–407): reject when the info
hash is already in the state registry; otherwise install a default
`TorrentState` (name and info hash from the magnet) into the state
registry, then record the fresh worker handle in the handle registry.
Spawning the worker itself has no effect on the registries. -/
def add_torrent (st : DaemonState) (magnet : Magnet) :
    Except Error DaemonState :=
  let info_hash := magnet.parse_xt
  match regLookup st.torrent_states info_hash with
  | some _ => Except.error Error.noDuplicateTorrent
  | none =>
    let torrent_state : TorrentState :=
      { defaultTorrentState with
          name := magnet.parse_dn, info_hash := info_hash }
    Except.ok
      { torrent_states := regInsert info_hash torrent_state st.torrent_states
        torrent_ctxs := regInsert info_hash st.next_ctx st.torrent_ctxs
        next_ctx := st.next_ctx + 1 }

/-- `Daemon::toggle_pause` (daemon.rs lines 325–334): resolve the handle
in the handle registry (`TorrentDoesNotExist` when absent) and send one
`TorrentMsg::TogglePause` on its channel.  The result pairs the `Result`
with the list of worker messages sent. -/
def toggle_pause (st : DaemonState) (info_hash : InfoHash) :
    Except Error (List (Nat × TorrentMsg)) :=
  match regLookup st.torrent_ctxs info_hash with
  | none => Except.error Error.torrentDoesNotExist
  | some c => Except.ok [(c, TorrentMsg.togglePause)]

/-- `torrent_states.values().all(|v| v.status == TorrentStatus::Seeding)`. -/
def allSeeding (states : List (InfoHash × TorrentState)) : Bool :=
  states.all (fun p => p.2.status == TorrentStatus.seeding)

/-- The observable outcome of handling one internal command: the new
daemon state, the messages the supervisor enqueued onto its own command
channel (`ctx.tx.send`), the reply sent on a `RequestTorrentState`
oneshot (if the command was one), the messages sent to torrent-worker
channels, and whether the loop `break`s. -/
structure StepOut where
  state : DaemonState
  enqueued : List DaemonMsg
  reply : Option (Option TorrentState)
  workerMsgs : List (Nat × TorrentMsg)
  brk : Bool
deriving DecidableEq, Repr

/-- One iteration of the internal command loop of `Daemon::run`
(daemon.rs lines 192–260).  Returns `none` when the handler panics: the
`MutateTorrent` arm does `ctxs.get_mut(&info_hash).unwrap()`, which
panics when the hash is absent from the handle registry. -/
def handleMsg (cfg : DaemonConfig) (st : DaemonState) (msg : DaemonMsg) :
    Option StepOut :=
  match msg with
  | DaemonMsg.torrentState s =>
    let states := regInsert s.info_hash s st.torrent_states
    let enq :=
      if cfg.quit_after_complete && allSeeding states then [DaemonMsg.quit]
      else []
    some { state := { st with torrent_states := states }
           enqueued := enq, reply := none, workerMsgs := [], brk := false }
  | DaemonMsg.addTorrent magnet =>
    match add_torrent st magnet with
    | Except.ok st' =>
      some { state := st', enqueued := [], reply := none, workerMsgs := []
             brk := false }
    | Except.error _ =>
      some { state := st, enqueued := [], reply := none, workerMsgs := []
             brk := false }
  | DaemonMsg.addTorrentWithPeers magnet _ =>
    match add_torrent st magnet with
    | Except.ok st' =>
      some { state := st', enqueued := [], reply := none, workerMsgs := []
             brk := false }
    | Except.error _ =>
      some { state := st, enqueued := [], reply := none, workerMsgs := []
             brk := false }
  | DaemonMsg.mutateTorrent info_hash c =>
    match regLookup st.torrent_ctxs info_hash with
    | none => none
    | some _ =>
      some { state := { st with torrent_ctxs := regInsert info_hash c st.torrent_ctxs }
             enqueued := [], reply := none, workerMsgs := [], brk := false }
  | DaemonMsg.togglePause info_hash =>
    match toggle_pause st info_hash with
    | Except.ok sent =>
      some { state := st, enqueued := [], reply := none, workerMsgs := sent
             brk := false }
    | Except.error _ =>
      some { state := st, enqueued := [], reply := none, workerMsgs := []
             brk := false }
  | DaemonMsg.requestTorrentState info_hash =>
    some { state := st, enqueued := []
           reply := some (regLookup st.torrent_states info_hash)
           workerMsgs := [], brk := false }
  | DaemonMsg.printTorrentStatus =>
    some { state := st, enqueued := [], reply := none, workerMsgs := []
           brk := false }
  | DaemonMsg.quit =>
    some { state := st, enqueued := [], reply := none
           workerMsgs := st.torrent_ctxs.map (fun p => (p.2, TorrentMsg.quit))
           brk := true }

/-- Fold `handleMsg` over a command sequence; stops at `Quit` (the loop
`break`s) and propagates a panic as `none`. -/
def runMsgs (cfg : DaemonConfig) : DaemonState → List DaemonMsg → Option DaemonState
  | st, [] => some st
  | st, msg :: rest =>
    match handleMsg cfg st msg with
    | none => none
    | some out => if out.brk then some out.state else runMsgs cfg out.state rest

/-- The key-set relation between the two registries that survives every
command: every key of the handle registry is a key of the state
registry. -/
def coveredB (st : DaemonState) : Bool :=
  st.torrent_ctxs.all (fun p => (regLookup st.torrent_states p.1).isSome)

/-- Number of `DaemonMsg::Quit` messages the supervisor enqueues onto its
own command channel while handling the given command sequence. -/
def quitEnqueues (cfg : DaemonConfig) : DaemonState → List DaemonMsg → Nat
  | _, [] => 0
  | st, msg :: rest =>
    match handleMsg cfg st msg with
    | none => 0
    | some out =>
      out.enqueued.countP (fun m => m == DaemonMsg.quit) +
        (if out.brk then 0 else quitEnqueues cfg out.state rest)

/-- Number of commands in the sequence that are an `AddTorrent` (or
`AddTorrentWithPeers`) for the given info hash and whose `add_torrent`
call returns `Ok` at the state it runs in. -/
def addOkCount (cfg : DaemonConfig) (h : InfoHash) :
    DaemonState → List DaemonMsg → Nat
  | _, [] => 0
  | st, msg :: rest =>
    let here : Nat :=
      match msg with
      | DaemonMsg.addTorrent magnet =>
        match add_torrent st magnet with
        | Except.ok _ => if magnet.parse_xt = h then 1 else 0
        | Except.error _ => 0
      | DaemonMsg.addTorrentWithPeers magnet _ =>
        match add_torrent st magnet with
        | Except.ok _ => if magnet.parse_xt = h then 1 else 0
        | Except.error _ => 0
      | _ => 0
    match handleMsg cfg st msg with
    | none => here
    | some out => here + (if out.brk then 0 else addOkCount cfg h out.state rest)

/-- Whether a command can install a state-registry entry for the given
info hash (an admission or a `TorrentState` upsert for it). -/
def touches (msg : DaemonMsg) (h : InfoHash) : Bool :=
  match msg with
  | DaemonMsg.addTorrent magnet => magnet.parse_xt == h
  | DaemonMsg.addTorrentWithPeers magnet _ => magnet.parse_xt == h
  | DaemonMsg.torrentState s => s.info_hash == h
  | _ => false

/-- The possible startup behaviours of `Daemon::run`: the listener came
up, or `run` returned an error, or the task panicked. -/
inductive RunStart
  | started (listener : Nat)
  | returned (e : Error)
  | panicked
deriving DecidableEq, Repr

/-- `Daemon::run` line 153:
`let socket = TcpListener::bind(self.config.listen).await.unwrap();`.
The bind result is `some listener` on success and `none` on failure; the
`.unwrap()` turns a failed bind into a panic of the supervisor task. -/
def runBindStep (bindResult : Option Nat) : RunStart :=
  match bindResult with
  | some l => RunStart.started l
  | none => RunStart.panicked

/-! ## Control-wire codec

Modelled from the spec: `daemon_wire.rs` (the `DaemonCodec` referenced by
`daemon.rs`) is not among the supervisor sources.  Spec §4.1: each frame
is a big-endian 4-byte length prefix `N`, a 1-byte message tag, and
`N − 1` bytes of payload; tags `0x01..0x06` carry a UTF-8 magnet URI, an
optional encoded `TorrentState` (1-byte presence flag then the fields in
fixed order), a 20-byte info hash, a 20-byte info hash, and two empty
payloads; frames with `N > 16 MiB` are rejected.  Strings are modelled as
their byte sequences (UTF-8 validation is not modelled); the per-field
encoding below fixes one deterministic choice: length-prefixed name,
big-endian `u64`/`u32` fields in declaration order. -/

/-- Wire messages of the control protocol (`Message` in `daemon_wire.rs`,
the variants of spec §4.1). -/
inductive Message
  | newTorrent (magnet : List Nat)
  | torrentState (s : Option TorrentState)
  | requestTorrentState (info_hash : InfoHash)
  | togglePause (info_hash : InfoHash)
  | quit
  | printTorrentStatus
deriving DecidableEq, Repr

/-- Big-endian 4-byte encoding of a `u32` value. -/
def u32BE (n : Nat) : List Nat :=
  [n / 16777216 % 256, n / 65536 % 256, n / 256 % 256, n % 256]

/-- Big-endian 8-byte encoding of a `u64` value. -/
def u64BE (n : Nat) : List Nat :=
  [n / 72057594037927936 % 256, n / 281474976710656 % 256,
   n / 1099511627776 % 256, n / 4294967296 % 256,
   n / 16777216 % 256, n / 65536 % 256, n / 256 % 256, n % 256]

/-- Big-endian value of a byte sequence. -/
def beVal (bs : List Nat) : Nat := bs.foldl (fun a b => a * 256 + b) 0

/-- Wire byte of a `TorrentStatus`. -/
def statusByte : TorrentStatus → Nat
  | TorrentStatus.idle => 0
  | TorrentStatus.connectingToTracker => 1
  | TorrentStatus.downloading => 2
  | TorrentStatus.seeding => 3
  | TorrentStatus.paused => 4
  | TorrentStatus.error => 5

/-- Decode a `TorrentStatus` wire byte. -/
def statusOfByte : Nat → Option TorrentStatus
  | 0 => some TorrentStatus.idle
  | 1 => some TorrentStatus.connectingToTracker
  | 2 => some TorrentStatus.downloading
  | 3 => some TorrentStatus.seeding
  | 4 => some TorrentStatus.paused
  | 5 => some TorrentStatus.error
  | _ => none

/-- Payload encoding of a `TorrentState`: the fields in declaration
order, the name length-prefixed. -/
def encodeTorrentState (s : TorrentState) : List Nat :=
  s.info_hash ++ (u32BE s.name.length ++ (s.name ++ (statusByte s.status ::
    (u64BE s.size ++ (u64BE s.downloaded ++ (u64BE s.uploaded ++
      (u64BE s.download_rate ++ (u64BE s.upload_rate ++
        (u32BE s.stats.seeders ++ u32BE s.stats.leechers)))))))))

/-- Tag and payload of a wire message (spec §4.1 table). -/
def encodePayload : Message → Nat × List Nat
  | Message.newTorrent magnet => (1, magnet)
  | Message.torrentState none => (2, [0])
  | Message.torrentState (some s) => (2, 1 :: encodeTorrentState s)
  | Message.requestTorrentState info_hash => (3, info_hash)
  | Message.togglePause info_hash => (4, info_hash)
  | Message.quit => (5, [])
  | Message.printTorrentStatus => (6, [])

/-- A full frame: 4-byte big-endian length prefix `N = payload + 1`,
then the tag byte, then the payload. -/
def encode (f : Message) : List Nat :=
  let p := encodePayload f
  u32BE (p.2.length + 1) ++ p.1 :: p.2

/-- Split off exactly `n` leading bytes, or fail. -/
def takeExact : Nat → List Nat → Option (List Nat × List Nat)
  | 0, bs => some ([], bs)
  | _ + 1, [] => none
  | n + 1, b :: bs =>
    match takeExact n bs with
    | none => none
    | some (xs, rest) => some (b :: xs, rest)

/-- Read one byte. -/
def readByte : List Nat → Option (Nat × List Nat)
  | [] => none
  | b :: bs => some (b, bs)

/-- Decode the trailing numeric fields (five `u64`, two `u32`) of an
encoded `TorrentState`, consuming the whole input. -/
def decodeNums (info_hash name : List Nat) (status : TorrentStatus)
    (r4 : List Nat) : Option TorrentState :=
  match takeExact 8 r4 with
  | none => none
  | some (szB, r5) =>
  match takeExact 8 r5 with
  | none => none
  | some (dlB, r6) =>
  match takeExact 8 r6 with
  | none => none
  | some (ulB, r7) =>
  match takeExact 8 r7 with
  | none => none
  | some (drB, r8) =>
  match takeExact 8 r8 with
  | none => none
  | some (urB, r9) =>
  match takeExact 4 r9 with
  | none => none
  | some (seB, r10) =>
  match takeExact 4 r10 with
  | none => none
  | some (leB, r11) =>
  match r11 with
  | [] =>
    some { info_hash := info_hash, name := name, status := status
           size := beVal szB, downloaded := beVal dlB, uploaded := beVal ulB
           download_rate := beVal drB, upload_rate := beVal urB
           stats := { seeders := beVal seB, leechers := beVal leB } }
  | _ :: _ => none

/-- Decode an encoded `TorrentState`, consuming the whole input. -/
def decodeTorrentState (bs : List Nat) : Option TorrentState :=
  match takeExact 20 bs with
  | none => none
  | some (info_hash, r1) =>
  match takeExact 4 r1 with
  | none => none
  | some (lenB, r2) =>
  match takeExact (beVal lenB) r2 with
  | none => none
  | some (name, r3) =>
  match readByte r3 with
  | none => none
  | some (sb, r4) =>
  match statusOfByte sb with
  | none => none
  | some status => decodeNums info_hash name status r4

/-- Decode the payload of a frame, given its tag (spec §4.1: unknown tag
or ill-shaped payload is a `MalformedFrame` rejection, modelled as
`none`). -/
def decodeBody (tag : Nat) (payload : List Nat) : Option Message :=
  match tag with
  | 1 => some (Message.newTorrent payload)
  | 2 =>
    match payload with
    | [0] => some (Message.torrentState none)
    | 1 :: rest => (decodeTorrentState rest).map (fun s => Message.torrentState (some s))
    | _ => none
  | 3 => if payload.length = 20 then some (Message.requestTorrentState payload) else none
  | 4 => if payload.length = 20 then some (Message.togglePause payload) else none
  | 5 => if payload.isEmpty then some Message.quit else none
  | 6 => if payload.isEmpty then some Message.printTorrentStatus else none
  | _ => none

/-- Decode one frame: 4-byte big-endian length prefix `N`, tag byte,
`N − 1` payload bytes; frames with `N > 16 MiB` are rejected (spec §4.1
size ceiling). -/
def decode (bs : List Nat) : Option Message :=
  match takeExact 4 bs with
  | none => none
  | some (lenB, r1) =>
  match readByte r1 with
  | none => none
  | some (tag, payload) =>
  let n := beVal lenB
  if 16777216 < n then none
  else if payload.length + 1 = n then decodeBody tag payload else none

/-- Well-formedness of a `TorrentState` as a wire value: 20-byte info
hash and fields within their machine-integer ranges. -/
def wfTorrentStateB (s : TorrentState) : Bool :=
  decide (s.info_hash.length = 20) && decide (s.name.length < 4294967296) &&
  decide (s.size < 18446744073709551616) &&
  decide (s.downloaded < 18446744073709551616) &&
  decide (s.uploaded < 18446744073709551616) &&
  decide (s.download_rate < 18446744073709551616) &&
  decide (s.upload_rate < 18446744073709551616) &&
  decide (s.stats.seeders < 4294967296) && decide (s.stats.leechers < 4294967296)

/-- Well-formedness of a wire message: 20-byte info hashes, in-range
fields, and a frame length within the 16 MiB ceiling. -/
def wfMessageB : Message → Bool
  | Message.newTorrent magnet => decide (magnet.length + 1 ≤ 16777216)
  | Message.torrentState none => true
  | Message.torrentState (some s) =>
    wfTorrentStateB s && decide (s.name.length + 75 ≤ 16777216)
  | Message.requestTorrentState info_hash => decide (info_hash.length = 20)
  | Message.togglePause info_hash => decide (info_hash.length = 20)
  | Message.quit => true
  | Message.printTorrentStatus => true

/-! ## Concrete inputs used by witnesses and counterexamples -/

/-- A configuration with `quit_after_complete = false`. -/
def cfg0 : DaemonConfig :=
  { listen := 0, download_dir := [], quit_after_complete := false }

/-- A configuration with `quit_after_complete = true`. -/
def cfgQ : DaemonConfig :=
  { listen := 0, download_dir := [], quit_after_complete := true }

/-- A concrete 20-byte info hash (`0xAA × 20`). -/
def hAA : InfoHash := List.replicate 20 170

/-- A concrete magnet with info hash `hAA` and display name `"X"`. -/
def mAA : Magnet := { xt := hAA, dn := [88] }

/-- A concrete snapshot for `hAA` in the initial status. -/
def sAA : TorrentState := { defaultTorrentState with info_hash := hAA }

/-- A concrete seeding snapshot for `hAA`. -/
def sSeedAA : TorrentState :=
  { defaultTorrentState with info_hash := hAA, status := TorrentStatus.seeding }

/-- The daemon state after admitting `mAA` from empty registries. -/
def stAfterAdd : DaemonState :=
  { torrent_states :=
      [(hAA, { defaultTorrentState with name := [88], info_hash := hAA })]
    torrent_ctxs := [(hAA, 0)], next_ctx := 1 }

/-- A state whose only entry is seeding. -/
def stSeed1 : DaemonState :=
  { torrent_states := [(hAA, sSeedAA)], torrent_ctxs := [(hAA, 0)], next_ctx := 1 }

/-- A state with a handle registered for `hAA` under channel id 3. -/
def stCtx1 : DaemonState :=
  { torrent_states := [(hAA, sAA)], torrent_ctxs := [(hAA, 3)], next_ctx := 4 }

/-- A concrete wire snapshot used by the codec witness. -/
def sWire : TorrentState :=
  { info_hash := hAA, name := [86, 67], status := TorrentStatus.downloading
    size := 100, downloaded := 10, uploaded := 2, download_rate := 5
    upload_rate := 1, stats := { seeders := 3, leechers := 4 } }

/-! ## Registry lemmas -/

theorem regLookup_regInsert_self {V : Type} (k : InfoHash) (v : V)
    (l : List (InfoHash × V)) : regLookup (regInsert k v l) k = some v := by
  induction l with
  | nil => simp [regInsert, regLookup]
  | cons p t ih =>
    obtain ⟨k', v'⟩ := p
    by_cases h : k' = k
    · simp [regInsert, h, regLookup]
    · simp [regInsert, h, regLookup, ih]

theorem regLookup_regInsert_ne {V : Type} {k k' : InfoHash} (v : V)
    (l : List (InfoHash × V)) (hne : k' ≠ k) :
    regLookup (regInsert k v l) k' = regLookup l k' := by
  induction l with
  | nil => simp [regInsert, regLookup, Ne.symm hne]
  | cons p t ih =>
    obtain ⟨k'', v''⟩ := p
    by_cases h : k'' = k
    · simp [regInsert, h, regLookup, Ne.symm hne]
    · simp [regInsert, h, regLookup, ih]

theorem isSome_regLookup_regInsert {V : Type} (k h : InfoHash) (v : V)
    (l : List (InfoHash × V)) (hs : (regLookup l h).isSome = true) :
    (regLookup (regInsert k v l) h).isSome = true := by
  by_cases he : h = k
  · subst he; simp [regLookup_regInsert_self]
  · rw [regLookup_regInsert_ne v l he]; exact hs

theorem mem_regInsert {V : Type} {p : InfoHash × V} {k : InfoHash} {v : V}
    {l : List (InfoHash × V)} (hp : p ∈ regInsert k v l) :
    p = (k, v) ∨ p ∈ l := by
  induction l with
  | nil => simpa [regInsert] using hp
  | cons q t ih =>
    obtain ⟨k', v'⟩ := q
    by_cases h : k' = k
    · simp [regInsert, h] at hp
      rcases hp with h1 | h1
      · left; simp [h1]
      · right; simp [h1]
    · simp [regInsert, h] at hp
      rcases hp with h1 | h1
      · right; simp [h1]
      · rcases ih h1 with h2 | h2
        · left; exact h2
        · right; exact List.mem_cons_of_mem _ h2

theorem mem_of_regLookup {V : Type} {l : List (InfoHash × V)} {k : InfoHash}
    {v : V} (h : regLookup l k = some v) : (k, v) ∈ l := by
  induction l with
  | nil => simp [regLookup] at h
  | cons q t ih =>
    obtain ⟨k', v'⟩ := q
    by_cases hk : k' = k
    · subst hk
      simp [regLookup] at h
      simp [h]
    · simp [regLookup, hk] at h
      exact List.mem_cons_of_mem _ (ih h)

/-! ## `add_torrent` characterization -/

theorem add_torrent_err (st : DaemonState) (magnet : Magnet)
    (h : (regLookup st.torrent_states magnet.parse_xt).isSome = true) :
    add_torrent st magnet = Except.error Error.noDuplicateTorrent := by
  cases hl : regLookup st.torrent_states magnet.parse_xt with
  | none => rw [hl] at h; simp at h
  | some v => simp [add_torrent, hl]

theorem add_torrent_ok_elim {st : DaemonState} {magnet : Magnet}
    {st' : DaemonState} (h : add_torrent st magnet = Except.ok st') :
    regLookup st.torrent_states magnet.parse_xt = none ∧
    st'.torrent_states =
      regInsert magnet.parse_xt
        { defaultTorrentState with
            name := magnet.parse_dn, info_hash := magnet.parse_xt }
        st.torrent_states ∧
    st'.torrent_ctxs = regInsert magnet.parse_xt st.next_ctx st.torrent_ctxs ∧
    st'.next_ctx = st.next_ctx + 1 := by
  cases hl : regLookup st.torrent_states magnet.parse_xt with
  | some v => simp [add_torrent, hl] at h
  | none =>
    simp only [add_torrent, hl, Except.ok.injEq] at h
    exact ⟨rfl, by rw [← h], by rw [← h], by rw [← h]⟩

/-! ## Per-command step lemmas -/

theorem coveredB_iff (st : DaemonState) :
    coveredB st = true ↔
      ∀ p ∈ st.torrent_ctxs, (regLookup st.torrent_states p.1).isSome = true := by
  simp [coveredB, List.all_eq_true]

theorem handleMsg_covered {cfg : DaemonConfig} {st : DaemonState}
    {msg : DaemonMsg} {out : StepOut} (hm : handleMsg cfg st msg = some out)
    (hc : coveredB st = true) : coveredB out.state = true := by
  rw [coveredB_iff] at hc ⊢
  cases msg with
  | torrentState s =>
    simp only [handleMsg, Option.some.injEq] at hm
    subst hm
    intro p hp
    exact isSome_regLookup_regInsert _ _ _ _ (hc p hp)
  | addTorrent magnet =>
    simp only [handleMsg] at hm
    cases hadd : add_torrent st magnet with
    | error e =>
      rw [hadd] at hm
      simp only [Option.some.injEq] at hm
      subst hm
      exact hc
    | ok stA =>
      rw [hadd] at hm
      simp only [Option.some.injEq] at hm
      subst hm
      obtain ⟨-, hsts, hctxs, -⟩ := add_torrent_ok_elim hadd
      intro p hp
      simp only [hctxs] at hp
      simp only [hsts]
      rcases mem_regInsert hp with h1 | h1
      · subst h1
        simp [regLookup_regInsert_self]
      · exact isSome_regLookup_regInsert _ _ _ _ (hc p h1)
  | addTorrentWithPeers magnet peers =>
    simp only [handleMsg] at hm
    cases hadd : add_torrent st magnet with
    | error e =>
      rw [hadd] at hm
      simp only [Option.some.injEq] at hm
      subst hm
      exact hc
    | ok stA =>
      rw [hadd] at hm
      simp only [Option.some.injEq] at hm
      subst hm
      obtain ⟨-, hsts, hctxs, -⟩ := add_torrent_ok_elim hadd
      intro p hp
      simp only [hctxs] at hp
      simp only [hsts]
      rcases mem_regInsert hp with h1 | h1
      · subst h1
        simp [regLookup_regInsert_self]
      · exact isSome_regLookup_regInsert _ _ _ _ (hc p h1)
  | mutateTorrent info_hash c =>
    simp only [handleMsg] at hm
    cases hl : regLookup st.torrent_ctxs info_hash with
    | none => rw [hl] at hm; simp at hm
    | some x =>
      rw [hl] at hm
      simp only [Option.some.injEq] at hm
      subst hm
      intro p hp
      rcases mem_regInsert hp with h1 | h1
      · subst h1
        exact hc (info_hash, x) (mem_of_regLookup hl)
      · exact hc p h1
  | togglePause info_hash =>
    simp only [handleMsg] at hm
    cases ht : toggle_pause st info_hash with
    | error e =>
      rw [ht] at hm
      simp only [Option.some.injEq] at hm
      subst hm
      exact hc
    | ok sent =>
      rw [ht] at hm
      simp only [Option.some.injEq] at hm
      subst hm
      exact hc
  | requestTorrentState info_hash =>
    simp only [handleMsg, Option.some.injEq] at hm
    subst hm
    exact hc
  | printTorrentStatus =>
    simp only [handleMsg, Option.some.injEq] at hm
    subst hm
    exact hc
  | quit =>
    simp only [handleMsg, Option.some.injEq] at hm
    subst hm
    exact hc

theorem handleMsg_states_mono {cfg : DaemonConfig} {st : DaemonState}
    {msg : DaemonMsg} {out : StepOut} {h : InfoHash}
    (hm : handleMsg cfg st msg = some out)
    (hs : (regLookup st.torrent_states h).isSome = true) :
    (regLookup out.state.torrent_states h).isSome = true := by
  cases msg with
  | torrentState s =>
    simp only [handleMsg, Option.some.injEq] at hm
    subst hm
    exact isSome_regLookup_regInsert _ _ _ _ hs
  | addTorrent magnet =>
    simp only [handleMsg] at hm
    cases hadd : add_torrent st magnet with
    | error e =>
      rw [hadd] at hm
      simp only [Option.some.injEq] at hm
      subst hm
      exact hs
    | ok stA =>
      rw [hadd] at hm
      simp only [Option.some.injEq] at hm
      subst hm
      obtain ⟨-, hsts, -, -⟩ := add_torrent_ok_elim hadd
      simp only [hsts]
      exact isSome_regLookup_regInsert _ _ _ _ hs
  | addTorrentWithPeers magnet peers =>
    simp only [handleMsg] at hm
    cases hadd : add_torrent st magnet with
    | error e =>
      rw [hadd] at hm
      simp only [Option.some.injEq] at hm
      subst hm
      exact hs
    | ok stA =>
      rw [hadd] at hm
      simp only [Option.some.injEq] at hm
      subst hm
      obtain ⟨-, hsts, -, -⟩ := add_torrent_ok_elim hadd
      simp only [hsts]
      exact isSome_regLookup_regInsert _ _ _ _ hs
  | mutateTorrent info_hash c =>
    simp only [handleMsg] at hm
    cases hl : regLookup st.torrent_ctxs info_hash with
    | none => rw [hl] at hm; simp at hm
    | some x =>
      rw [hl] at hm
      simp only [Option.some.injEq] at hm
      subst hm
      exact hs
  | togglePause info_hash =>
    simp only [handleMsg] at hm
    cases ht : toggle_pause st info_hash with
    | error e =>
      rw [ht] at hm
      simp only [Option.some.injEq] at hm
      subst hm
      exact hs
    | ok sent =>
      rw [ht] at hm
      simp only [Option.some.injEq] at hm
      subst hm
      exact hs
  | requestTorrentState info_hash =>
    simp only [handleMsg, Option.some.injEq] at hm
    subst hm
    exact hs
  | printTorrentStatus =>
    simp only [handleMsg, Option.some.injEq] at hm
    subst hm
    exact hs
  | quit =>
    simp only [handleMsg, Option.some.injEq] at hm
    subst hm
    exact hs

theorem handleMsg_states_untouched {cfg : DaemonConfig} {st : DaemonState}
    {msg : DaemonMsg} {out : StepOut} {h : InfoHash}
    (hm : handleMsg cfg st msg = some out) (ht : touches msg h = false) :
    regLookup out.state.torrent_states h = regLookup st.torrent_states h := by
  cases msg with
  | torrentState s =>
    simp only [touches, beq_eq_false_iff_ne, ne_eq] at ht
    simp only [handleMsg, Option.some.injEq] at hm
    subst hm
    exact regLookup_regInsert_ne _ _ (fun he => ht he.symm)
  | addTorrent magnet =>
    simp only [touches, beq_eq_false_iff_ne, ne_eq] at ht
    simp only [handleMsg] at hm
    cases hadd : add_torrent st magnet with
    | error e =>
      rw [hadd] at hm
      simp only [Option.some.injEq] at hm
      subst hm
      rfl
    | ok stA =>
      rw [hadd] at hm
      simp only [Option.some.injEq] at hm
      subst hm
      obtain ⟨-, hsts, -, -⟩ := add_torrent_ok_elim hadd
      simp only [hsts]
      exact regLookup_regInsert_ne _ _ (fun he => ht he.symm)
  | addTorrentWithPeers magnet peers =>
    simp only [touches, beq_eq_false_iff_ne, ne_eq] at ht
    simp only [handleMsg] at hm
    cases hadd : add_torrent st magnet with
    | error e =>
      rw [hadd] at hm
      simp only [Option.some.injEq] at hm
      subst hm
      rfl
    | ok stA =>
      rw [hadd] at hm
      simp only [Option.some.injEq] at hm
      subst hm
      obtain ⟨-, hsts, -, -⟩ := add_torrent_ok_elim hadd
      simp only [hsts]
      exact regLookup_regInsert_ne _ _ (fun he => ht he.symm)
  | mutateTorrent info_hash c =>
    simp only [handleMsg] at hm
    cases hl : regLookup st.torrent_ctxs info_hash with
    | none => rw [hl] at hm; simp at hm
    | some x =>
      rw [hl] at hm
      simp only [Option.some.injEq] at hm
      subst hm
      rfl
  | togglePause info_hash =>
    simp only [handleMsg] at hm
    cases htp : toggle_pause st info_hash with
    | error e =>
      rw [htp] at hm
      simp only [Option.some.injEq] at hm
      subst hm
      rfl
    | ok sent =>
      rw [htp] at hm
      simp only [Option.some.injEq] at hm
      subst hm
      rfl
  | requestTorrentState info_hash =>
    simp only [handleMsg, Option.some.injEq] at hm
    subst hm
    rfl
  | printTorrentStatus =>
    simp only [handleMsg, Option.some.injEq] at hm
    subst hm
    rfl
  | quit =>
    simp only [handleMsg, Option.some.injEq] at hm
    subst hm
    rfl

theorem handleMsg_enqueued_nil {cfg : DaemonConfig} {st : DaemonState}
    {msg : DaemonMsg} {out : StepOut} (hm : handleMsg cfg st msg = some out)
    (hq : cfg.quit_after_complete = false) : out.enqueued = [] := by
  cases msg with
  | torrentState s =>
    simp only [handleMsg, hq, Bool.false_and, if_neg, Option.some.injEq] at hm
    subst hm
    rfl
  | addTorrent magnet =>
    simp only [handleMsg] at hm
    cases hadd : add_torrent st magnet with
    | error e =>
      rw [hadd] at hm
      simp only [Option.some.injEq] at hm
      subst hm
      rfl
    | ok stA =>
      rw [hadd] at hm
      simp only [Option.some.injEq] at hm
      subst hm
      rfl
  | addTorrentWithPeers magnet peers =>
    simp only [handleMsg] at hm
    cases hadd : add_torrent st magnet with
    | error e =>
      rw [hadd] at hm
      simp only [Option.some.injEq] at hm
      subst hm
      rfl
    | ok stA =>
      rw [hadd] at hm
      simp only [Option.some.injEq] at hm
      subst hm
      rfl
  | mutateTorrent info_hash c =>
    simp only [handleMsg] at hm
    cases hl : regLookup st.torrent_ctxs info_hash with
    | none => rw [hl] at hm; simp at hm
    | some x =>
      rw [hl] at hm
      simp only [Option.some.injEq] at hm
      subst hm
      rfl
  | togglePause info_hash =>
    simp only [handleMsg] at hm
    cases htp : toggle_pause st info_hash with
    | error e =>
      rw [htp] at hm
      simp only [Option.some.injEq] at hm
      subst hm
      rfl
    | ok sent =>
      rw [htp] at hm
      simp only [Option.some.injEq] at hm
      subst hm
      rfl
  | requestTorrentState info_hash =>
    simp only [handleMsg, Option.some.injEq] at hm
    subst hm
    rfl
  | printTorrentStatus =>
    simp only [handleMsg, Option.some.injEq] at hm
    subst hm
    rfl
  | quit =>
    simp only [handleMsg, Option.some.injEq] at hm
    subst hm
    rfl

/-! ## Trace-level lemmas -/

theorem runMsgs_covered {cfg : DaemonConfig} :
    ∀ {msgs : List DaemonMsg} {st st' : DaemonState},
      runMsgs cfg st msgs = some st' → coveredB st = true → coveredB st' = true := by
  intro msgs
  induction msgs with
  | nil =>
    intro st st' h hc
    simp only [runMsgs, Option.some.injEq] at h
    rw [← h]
    exact hc
  | cons m rest ih =>
    intro st st' h hc
    simp only [runMsgs] at h
    cases hm : handleMsg cfg st m with
    | none => rw [hm] at h; simp at h
    | some out =>
      rw [hm] at h
      simp only at h
      by_cases hb : out.brk
      · rw [if_pos hb] at h
        simp only [Option.some.injEq] at h
        rw [← h]
        exact handleMsg_covered hm hc
      · rw [if_neg hb] at h
        exact ih h (handleMsg_covered hm hc)

theorem runMsgs_states_mono {cfg : DaemonConfig} {h : InfoHash} :
    ∀ {msgs : List DaemonMsg} {st st' : DaemonState},
      runMsgs cfg st msgs = some st' →
      (regLookup st.torrent_states h).isSome = true →
      (regLookup st'.torrent_states h).isSome = true := by
  intro msgs
  induction msgs with
  | nil =>
    intro st st' hr hs
    simp only [runMsgs, Option.some.injEq] at hr
    rw [← hr]
    exact hs
  | cons m rest ih =>
    intro st st' hr hs
    simp only [runMsgs] at hr
    cases hm : handleMsg cfg st m with
    | none => rw [hm] at hr; simp at hr
    | some out =>
      rw [hm] at hr
      simp only at hr
      by_cases hb : out.brk
      · rw [if_pos hb] at hr
        simp only [Option.some.injEq] at hr
        rw [← hr]
        exact handleMsg_states_mono hm hs
      · rw [if_neg hb] at hr
        exact ih hr (handleMsg_states_mono hm hs)

theorem runMsgs_states_untouched {cfg : DaemonConfig} {h : InfoHash} :
    ∀ {msgs : List DaemonMsg} {st st' : DaemonState},
      runMsgs cfg st msgs = some st' →
      (∀ m ∈ msgs, touches m h = false) →
      regLookup st'.torrent_states h = regLookup st.torrent_states h := by
  intro msgs
  induction msgs with
  | nil =>
    intro st st' hr _
    simp only [runMsgs, Option.some.injEq] at hr
    rw [← hr]
  | cons m rest ih =>
    intro st st' hr htl
    simp only [runMsgs] at hr
    cases hm : handleMsg cfg st m with
    | none => rw [hm] at hr; simp at hr
    | some out =>
      rw [hm] at hr
      simp only at hr
      have hstep := handleMsg_states_untouched hm (htl m (List.mem_cons_self m rest))
      by_cases hb : out.brk
      · rw [if_pos hb] at hr
        simp only [Option.some.injEq] at hr
        rw [← hr]
        exact hstep
      · rw [if_neg hb] at hr
        rw [ih hr (fun mm hmm => htl mm (List.mem_cons_of_mem m hmm))]
        exact hstep

theorem quitEnqueues_eq_zero {cfg : DaemonConfig}
    (hq : cfg.quit_after_complete = false) :
    ∀ (msgs : List DaemonMsg) (st : DaemonState), quitEnqueues cfg st msgs = 0 := by
  intro msgs
  induction msgs with
  | nil => intro st; rfl
  | cons m rest ih =>
    intro st
    simp only [quitEnqueues]
    cases hm : handleMsg cfg st m with
    | none => rfl
    | some out =>
      simp only [handleMsg_enqueued_nil hm hq, List.countP_nil, Nat.zero_add]
      by_cases hb : out.brk
      · rw [if_pos hb]
      · rw [if_neg hb]
        exact ih out.state

theorem addOkCount_eq_zero_of_present {cfg : DaemonConfig} {h : InfoHash} :
    ∀ (msgs : List DaemonMsg) (st : DaemonState),
      (regLookup st.torrent_states h).isSome = true →
      addOkCount cfg h st msgs = 0 := by
  intro msgs
  induction msgs with
  | nil => intro st _; rfl
  | cons m rest ih =>
    intro st hs
    cases m with
    | addTorrent magnet =>
      simp only [addOkCount, handleMsg]
      cases hadd : add_torrent st magnet with
      | error e => simp [hadd, ih st hs]
      | ok stA =>
        obtain ⟨hnone, hsts, -, -⟩ := add_torrent_ok_elim hadd
        have hne : ¬ magnet.parse_xt = h := by
          intro he
          rw [he] at hnone
          rw [hnone] at hs
          simp at hs
        have hsA : (regLookup stA.torrent_states h).isSome = true := by
          rw [hsts]
          exact isSome_regLookup_regInsert _ _ _ _ hs
        simp [hadd, hne, ih stA hsA]
    | addTorrentWithPeers magnet peers =>
      simp only [addOkCount, handleMsg]
      cases hadd : add_torrent st magnet with
      | error e => simp [hadd, ih st hs]
      | ok stA =>
        obtain ⟨hnone, hsts, -, -⟩ := add_torrent_ok_elim hadd
        have hne : ¬ magnet.parse_xt = h := by
          intro he
          rw [he] at hnone
          rw [hnone] at hs
          simp at hs
        have hsA : (regLookup stA.torrent_states h).isSome = true := by
          rw [hsts]
          exact isSome_regLookup_regInsert _ _ _ _ hs
        simp [hadd, hne, ih stA hsA]
    | torrentState s =>
      simp only [addOkCount, handleMsg]
      simp
      exact ih _ (isSome_regLookup_regInsert _ _ _ _ hs)
    | mutateTorrent info_hash c =>
      simp only [addOkCount, handleMsg]
      cases hl : regLookup st.torrent_ctxs info_hash with
      | none => simp [hl]
      | some x =>
        simp [hl]
        exact ih _ hs
    | togglePause info_hash =>
      simp only [addOkCount, handleMsg]
      cases htp : toggle_pause st info_hash with
      | error e => simp [htp, ih st hs]
      | ok sent => simp [htp, ih st hs]
    | requestTorrentState info_hash =>
      simp only [addOkCount, handleMsg]
      simp [ih st hs]
    | printTorrentStatus =>
      simp only [addOkCount, handleMsg]
      simp [ih st hs]
    | quit =>
      simp only [addOkCount, handleMsg]
      simp

theorem addOkCount_le_one (cfg : DaemonConfig) (h : InfoHash) :
    ∀ (msgs : List DaemonMsg) (st : DaemonState), addOkCount cfg h st msgs ≤ 1 := by
  intro msgs
  induction msgs with
  | nil => intro st; simp [addOkCount]
  | cons m rest ih =>
    intro st
    cases m with
    | addTorrent magnet =>
      simp only [addOkCount, handleMsg]
      cases hadd : add_torrent st magnet with
      | error e => simpa [hadd] using ih st
      | ok stA =>
        by_cases hx : magnet.parse_xt = h
        · obtain ⟨hnone, hsts, -, -⟩ := add_torrent_ok_elim hadd
          have hsA : (regLookup stA.torrent_states h).isSome = true := by
            rw [hsts, ← hx]
            simp [regLookup_regInsert_self]
          simp [hadd, hx, addOkCount_eq_zero_of_present rest stA hsA]
        · simpa [hadd, hx] using ih stA
    | addTorrentWithPeers magnet peers =>
      simp only [addOkCount, handleMsg]
      cases hadd : add_torrent st magnet with
      | error e => simpa [hadd] using ih st
      | ok stA =>
        by_cases hx : magnet.parse_xt = h
        · obtain ⟨hnone, hsts, -, -⟩ := add_torrent_ok_elim hadd
          have hsA : (regLookup stA.torrent_states h).isSome = true := by
            rw [hsts, ← hx]
            simp [regLookup_regInsert_self]
          simp [hadd, hx, addOkCount_eq_zero_of_present rest stA hsA]
        · simpa [hadd, hx] using ih stA
    | torrentState s =>
      simp only [addOkCount, handleMsg]
      simpa using ih _
    | mutateTorrent info_hash c =>
      simp only [addOkCount, handleMsg]
      cases hl : regLookup st.torrent_ctxs info_hash with
      | none => simp [hl]
      | some x => simpa [hl] using ih _
    | togglePause info_hash =>
      simp only [addOkCount, handleMsg]
      cases htp : toggle_pause st info_hash with
      | error e => simpa [htp] using ih st
      | ok sent => simpa [htp] using ih st
    | requestTorrentState info_hash =>
      simp only [addOkCount, handleMsg]
      simpa using ih st
    | printTorrentStatus =>
      simp only [addOkCount, handleMsg]
      simpa using ih st
    | quit =>
      simp only [addOkCount, handleMsg]
      simp

/-! ## Codec lemmas -/

theorem length_u32BE (n : Nat) : (u32BE n).length = 4 := rfl

theorem length_u64BE (n : Nat) : (u64BE n).length = 8 := rfl

theorem beVal_u32BE {n : Nat} (h : n < 4294967296) : beVal (u32BE n) = n := by
  simp only [beVal, u32BE, List.foldl]
  omega

theorem beVal_u64BE {n : Nat} (h : n < 18446744073709551616) :
    beVal (u64BE n) = n := by
  simp only [beVal, u64BE, List.foldl]
  omega

theorem takeExact_append (a b : List Nat) :
    takeExact a.length (a ++ b) = some (a, b) := by
  induction a with
  | nil => rfl
  | cons x xs ih => simp [takeExact, ih]

theorem takeExact_of_len {n : Nat} {a : List Nat} (h : a.length = n)
    (b : List Nat) : takeExact n (a ++ b) = some (a, b) := by
  rw [← h]
  exact takeExact_append a b

theorem takeExact_all {n : Nat} {l : List Nat} (h : l.length = n) :
    takeExact n l = some (l, []) := by
  have := takeExact_of_len h []
  rwa [List.append_nil] at this

theorem statusOfByte_statusByte (s : TorrentStatus) :
    statusOfByte (statusByte s) = some s := by
  cases s <;> rfl

theorem length_encodeTorrentState {s : TorrentState}
    (h20 : s.info_hash.length = 20) :
    (encodeTorrentState s).length = 73 + s.name.length := by
  simp [encodeTorrentState, List.length_append, List.length_cons, length_u32BE,
    length_u64BE, h20]
  omega

theorem decodeNums_encode (info_hash name : List Nat)
    (status : TorrentStatus) (sz dl ul dr ur se le : Nat)
    (hsz : sz < 18446744073709551616) (hdl : dl < 18446744073709551616)
    (hul : ul < 18446744073709551616) (hdr : dr < 18446744073709551616)
    (hur : ur < 18446744073709551616) (hse : se < 4294967296)
    (hle : le < 4294967296) :
    decodeNums info_hash name status
        (u64BE sz ++ (u64BE dl ++ (u64BE ul ++ (u64BE dr ++ (u64BE ur ++
          (u32BE se ++ u32BE le)))))) =
      some { info_hash := info_hash, name := name, status := status
             size := sz, downloaded := dl, uploaded := ul
             download_rate := dr, upload_rate := ur
             stats := { seeders := se, leechers := le } } := by
  simp only [decodeNums]
  rw [takeExact_of_len (length_u64BE sz)]
  simp only []
  rw [takeExact_of_len (length_u64BE dl)]
  simp only []
  rw [takeExact_of_len (length_u64BE ul)]
  simp only []
  rw [takeExact_of_len (length_u64BE dr)]
  simp only []
  rw [takeExact_of_len (length_u64BE ur)]
  simp only []
  rw [takeExact_of_len (length_u32BE se)]
  simp only []
  rw [takeExact_all (length_u32BE le)]
  simp only []
  rw [beVal_u64BE hsz, beVal_u64BE hdl, beVal_u64BE hul, beVal_u64BE hdr,
    beVal_u64BE hur, beVal_u32BE hse, beVal_u32BE hle]

theorem decodeTorrentState_encode {s : TorrentState}
    (hw : wfTorrentStateB s = true) :
    decodeTorrentState (encodeTorrentState s) = some s := by
  have hw' := hw
  simp only [wfTorrentStateB, Bool.and_eq_true, decide_eq_true_eq] at hw'
  obtain ⟨⟨⟨⟨⟨⟨⟨⟨h20, hnm⟩, hsz⟩, hdl⟩, hul⟩, hdr⟩, hur⟩, hse⟩, hle⟩ := hw'
  simp only [decodeTorrentState, encodeTorrentState]
  rw [takeExact_of_len h20]
  simp only []
  rw [takeExact_of_len (length_u32BE s.name.length)]
  simp only []
  rw [beVal_u32BE hnm]
  rw [takeExact_append]
  simp only []
  simp only [readByte, statusOfByte_statusByte]
  rw [decodeNums_encode s.info_hash s.name s.status s.size s.downloaded
    s.uploaded s.download_rate s.upload_rate s.stats.seeders s.stats.leechers
    hsz hdl hul hdr hur hse hle]

/-! ## Claim theorems -/

/-- Claim C1, counterexample: handling `DaemonMsg::TorrentState` for an
info hash never admitted via `add_torrent` (here, the very first command
from empty registries) inserts into the state registry only: afterwards
the state registry holds key `hAA` while the handle registry does not, so
the two registries do not contain the same set of info-hash keys. -/
theorem orphan_state_breaks_key_agreement :
    (runMsgs cfg0 emptyDaemon [DaemonMsg.torrentState sAA]).map
        (fun st => ((regLookup st.torrent_states hAA).isSome,
          (regLookup st.torrent_ctxs hAA).isSome)) = some (true, false) := by
  decide

/-- Claim C1, amended: after the supervisor finishes handling any single
internal command (starting from empty registries, along every sequence of
`DaemonMsg` commands that completes without a panic), every info hash in
the handle registry also keys the state registry.  The converse — and
hence equality of the key sets — fails: a `TorrentState` upsert for a
never-admitted info hash adds a state-registry key with no handle. -/
theorem handle_keys_always_covered (cfg : DaemonConfig)
    (msgs : List DaemonMsg) (st' : DaemonState)
    (h : runMsgs cfg emptyDaemon msgs = some st') : coveredB st' = true :=
  runMsgs_covered h rfl

/-- Witness: the covering holds concretely after admitting one magnet. -/
theorem handle_keys_always_covered_witness : coveredB stAfterAdd = true :=
  handle_keys_always_covered cfg0 [DaemonMsg.addTorrent mAA] stAfterAdd
    (by decide)

/-- Claim C9: with `quit_after_complete = false` the auto-quit logic
never enqueues a `Quit` onto the internal command channel, for every
start state and every command sequence. -/
theorem no_quit_enqueued_without_flag (cfg : DaemonConfig)
    (st : DaemonState) (msgs : List DaemonMsg)
    (hq : cfg.quit_after_complete = false) : quitEnqueues cfg st msgs = 0 :=
  quitEnqueues_eq_zero hq msgs st

/-- Witness: no `Quit` enqueued even on an all-seeding upsert when the
flag is off. -/
theorem no_quit_enqueued_without_flag_witness :
    cfg0.quit_after_complete = false ∧
      quitEnqueues cfg0 stSeed1 [DaemonMsg.torrentState sSeedAA] = 0 :=
  ⟨rfl, no_quit_enqueued_without_flag cfg0 stSeed1
    [DaemonMsg.torrentState sSeedAA] rfl⟩

/-- Claim C10: handling `RequestTorrentState` and `PrintTorrentStatus`
is read-only: for every registry content and argument, the daemon state
(both registries included) is returned unchanged, no message is enqueued
and no worker message is sent; the only effect is the oneshot reply
(respectively the stdout rendering, which has no model state). -/
theorem request_and_print_read_only (cfg : DaemonConfig) (st : DaemonState)
    (info_hash : InfoHash) :
    handleMsg cfg st (DaemonMsg.requestTorrentState info_hash) =
      some { state := st, enqueued := []
             reply := some (regLookup st.torrent_states info_hash)
             workerMsgs := [], brk := false } ∧
    handleMsg cfg st DaemonMsg.printTorrentStatus =
      some { state := st, enqueued := [], reply := none, workerMsgs := []
             brk := false } :=
  ⟨rfl, rfl⟩

/-- Claim C7, counterexample: handling `MutateTorrent` for an info hash
absent from the handle registry is not a no-op: the `get_mut(..).unwrap()`
in the handler panics, modelled as the step returning `none` instead of a
successful step leaving the registries unchanged. -/
theorem mutate_unknown_hash_panics :
    handleMsg cfg0 emptyDaemon (DaemonMsg.mutateTorrent hAA 7) = none := rfl

/-- Claim C7, amended: when the info hash is present in the handle
registry, `MutateTorrent` replaces that entry's handle with the new one
(state registry untouched); when it is absent the handler panics
(`get_mut(..).unwrap()` on `None`), it does not leave the registries
unchanged without crashing. -/
theorem mutate_torrent_replace_or_panic (cfg : DaemonConfig)
    (st : DaemonState) (info_hash : InfoHash) (c : Nat) :
    (regLookup st.torrent_ctxs info_hash = none →
      handleMsg cfg st (DaemonMsg.mutateTorrent info_hash c) = none) ∧
    (∀ x, regLookup st.torrent_ctxs info_hash = some x →
      handleMsg cfg st (DaemonMsg.mutateTorrent info_hash c) =
        some { state :=
                 { st with torrent_ctxs := regInsert info_hash c st.torrent_ctxs }
               enqueued := [], reply := none, workerMsgs := [], brk := false }) := by
  constructor
  · intro h
    simp [handleMsg, h]
  · intro x h
    simp [handleMsg, h]

/-- Witness: both branches of the amended C7 at concrete registries. -/
theorem mutate_torrent_replace_or_panic_witness :
    handleMsg cfg0 emptyDaemon (DaemonMsg.mutateTorrent hAA 7) = none ∧
      handleMsg cfg0 stCtx1 (DaemonMsg.mutateTorrent hAA 9) =
        some { state :=
                 { stCtx1 with torrent_ctxs := regInsert hAA 9 stCtx1.torrent_ctxs }
               enqueued := [], reply := none, workerMsgs := [], brk := false } :=
  ⟨(mutate_torrent_replace_or_panic cfg0 emptyDaemon hAA 7).1 rfl,
   (mutate_torrent_replace_or_panic cfg0 stCtx1 hAA 9).2 3 (by decide)⟩

/-- Claim C8: `toggle_pause` sends exactly one `TorrentMsg::TogglePause`
to the registered handle's channel and returns `Ok` when the info hash is
in the handle registry; when it is absent it returns
`Err(TorrentDoesNotExist)` and sends no worker message.  In both cases
the registries are unchanged. -/
theorem toggle_pause_dispatch (cfg : DaemonConfig) (st : DaemonState)
    (info_hash : InfoHash) :
    (∀ c, regLookup st.torrent_ctxs info_hash = some c →
      toggle_pause st info_hash = Except.ok [(c, TorrentMsg.togglePause)] ∧
      handleMsg cfg st (DaemonMsg.togglePause info_hash) =
        some { state := st, enqueued := [], reply := none
               workerMsgs := [(c, TorrentMsg.togglePause)], brk := false }) ∧
    (regLookup st.torrent_ctxs info_hash = none →
      toggle_pause st info_hash = Except.error Error.torrentDoesNotExist ∧
      handleMsg cfg st (DaemonMsg.togglePause info_hash) =
        some { state := st, enqueued := [], reply := none, workerMsgs := []
               brk := false }) := by
  constructor
  · intro c h
    constructor
    · simp [toggle_pause, h]
    · simp [handleMsg, toggle_pause, h]
  · intro h
    constructor
    · simp [toggle_pause, h]
    · simp [handleMsg, toggle_pause, h]

/-- Witness: both branches of C8 at concrete registries. -/
theorem toggle_pause_dispatch_witness :
    (toggle_pause stCtx1 hAA = Except.ok [(3, TorrentMsg.togglePause)] ∧
      handleMsg cfg0 stCtx1 (DaemonMsg.togglePause hAA) =
        some { state := stCtx1, enqueued := [], reply := none
               workerMsgs := [(3, TorrentMsg.togglePause)], brk := false }) ∧
    (toggle_pause emptyDaemon hAA = Except.error Error.torrentDoesNotExist ∧
      handleMsg cfg0 emptyDaemon (DaemonMsg.togglePause hAA) =
        some { state := emptyDaemon, enqueued := [], reply := none
               workerMsgs := [], brk := false }) :=
  ⟨(toggle_pause_dispatch cfg0 stCtx1 hAA).1 3 (by decide),
   (toggle_pause_dispatch cfg0 emptyDaemon hAA).2 rfl⟩

/-- Claim C6 (code bug): when binding the listening socket fails,
`Daemon::run` does not return `Err(BindFailure)` — the `.unwrap()` on the
bind result makes the supervisor task panic. -/
theorem bind_failure_panics_not_returned :
    runBindStep none = RunStart.panicked ∧
      runBindStep none ≠ RunStart.returned Error.bindFailure :=
  ⟨rfl, by decide⟩

/-- Claim C2, counterexample: with `quit_after_complete = true`, after
admitting one torrent and upserting a seeding state twice, the supervisor
has enqueued two `Quit` messages, not exactly one in total — the second
all-seeding upsert enqueues again. -/
theorem all_seeding_upserts_enqueue_multiple_quits :
    quitEnqueues cfgQ emptyDaemon
        [DaemonMsg.addTorrent mAA, DaemonMsg.torrentState sSeedAA,
          DaemonMsg.torrentState sSeedAA] = 2 ∧
      quitEnqueues cfgQ emptyDaemon
          [DaemonMsg.addTorrent mAA, DaemonMsg.torrentState sSeedAA,
            DaemonMsg.torrentState sSeedAA] ≠ 1 := by
  decide

/-- Claim C2, amended: with `quit_after_complete = true`, every
`TorrentState` upsert that leaves all state-registry entries `Seeding`
enqueues exactly one `Quit` — including repeated upserts while the
registry is already all-seeding, so `n` such upserts enqueue `n` `Quit`s
(the enqueue is per-upsert, there is no once-only latch). -/
theorem auto_quit_enqueues_per_seeding_upsert (cfg : DaemonConfig)
    (st : DaemonState) (s : TorrentState)
    (hq : cfg.quit_after_complete = true) :
    handleMsg cfg st (DaemonMsg.torrentState s) =
      some { state :=
               { st with torrent_states := regInsert s.info_hash s st.torrent_states }
             enqueued :=
               if allSeeding (regInsert s.info_hash s st.torrent_states) then
                 [DaemonMsg.quit]
               else []
             reply := none, workerMsgs := [], brk := false } := by
  simp [handleMsg, hq]

/-- Witness: an upsert on an already all-seeding registry enqueues one
more `Quit`. -/
theorem auto_quit_enqueues_per_seeding_upsert_witness :
    cfgQ.quit_after_complete = true ∧
      handleMsg cfgQ stSeed1 (DaemonMsg.torrentState sSeedAA) =
        some { state :=
                 { stSeed1 with
                     torrent_states :=
                       regInsert sSeedAA.info_hash sSeedAA stSeed1.torrent_states }
               enqueued :=
                 if allSeeding (regInsert sSeedAA.info_hash sSeedAA stSeed1.torrent_states) then
                   [DaemonMsg.quit]
                 else []
               reply := none, workerMsgs := [], brk := false } :=
  ⟨rfl, auto_quit_enqueues_per_seeding_upsert cfgQ stSeed1 sSeedAA rfl⟩

/-- Claim C3: along every command sequence, at most one `AddTorrent` (or
`AddTorrentWithPeers`) for a given info hash succeeds; moreover whenever
the info hash is already present in the state registry, `add_torrent`
returns `Err(NoDuplicateTorrent)`. -/
theorem add_torrent_at_most_one_ok (cfg : DaemonConfig) (h : InfoHash)
    (st0 : DaemonState) (msgs : List DaemonMsg) (st : DaemonState)
    (magnet : Magnet) :
    addOkCount cfg h st0 msgs ≤ 1 ∧
    ((regLookup st.torrent_states magnet.parse_xt).isSome = true →
      add_torrent st magnet = Except.error Error.noDuplicateTorrent) :=
  ⟨addOkCount_le_one cfg h msgs st0, fun hp => add_torrent_err st magnet hp⟩

/-- Witness: the duplicate admission of `mAA` fails. -/
theorem add_torrent_at_most_one_ok_witness :
    addOkCount cfg0 hAA emptyDaemon
        [DaemonMsg.addTorrent mAA, DaemonMsg.addTorrent mAA] ≤ 1 ∧
      add_torrent stAfterAdd mAA = Except.error Error.noDuplicateTorrent :=
  ⟨(add_torrent_at_most_one_ok cfg0 hAA emptyDaemon
      [DaemonMsg.addTorrent mAA, DaemonMsg.addTorrent mAA] stAfterAdd mAA).1,
   (add_torrent_at_most_one_ok cfg0 hAA emptyDaemon
      [DaemonMsg.addTorrent mAA, DaemonMsg.addTorrent mAA] stAfterAdd mAA).2
     (by decide)⟩

/-- Claim C4, counterexample: after a `TorrentState` upsert for the
never-admitted info hash `hAA` (no `add_torrent` ever ran), a
`RequestTorrentState hAA` replies `Some(state)`, not `None` as the claim
asserts for never-admitted hashes. -/
theorem request_state_some_for_unadmitted_hash :
    (runMsgs cfg0 emptyDaemon [DaemonMsg.torrentState sAA]).bind
        (fun st =>
          (handleMsg cfg0 st (DaemonMsg.requestTorrentState hAA)).map
            StepOut.reply) = some (some (some sAA)) ∧
      (runMsgs cfg0 emptyDaemon [DaemonMsg.torrentState sAA]).bind
          (fun st =>
            (handleMsg cfg0 st (DaemonMsg.requestTorrentState hAA)).map
              StepOut.reply) ≠ some (some none) := by
  decide

/-- Claim C4, amended: after a successful `add_torrent`, any later
`RequestTorrentState` for that info hash (handled before a panic) replies
`Some(state)`; and a `RequestTorrentState` for an info hash that was
never admitted **and never the subject of a `TorrentState` upsert**
replies `None`.  The extra condition is forced: an upsert alone installs
a state (see the counterexample). -/
theorem request_state_some_after_admit_none_when_untouched
    (cfg : DaemonConfig) (st stA st2 st' : DaemonState) (magnet : Magnet)
    (post msgs : List DaemonMsg) (h : InfoHash) :
    (add_torrent st magnet = Except.ok stA →
      runMsgs cfg stA post = some st2 →
      handleMsg cfg st2 (DaemonMsg.requestTorrentState magnet.parse_xt) =
        some { state := st2, enqueued := []
               reply := some (regLookup st2.torrent_states magnet.parse_xt)
               workerMsgs := [], brk := false } ∧
      (regLookup st2.torrent_states magnet.parse_xt).isSome = true) ∧
    (runMsgs cfg emptyDaemon msgs = some st' →
      (∀ m ∈ msgs, touches m h = false) →
      handleMsg cfg st' (DaemonMsg.requestTorrentState h) =
        some { state := st', enqueued := [], reply := some none
               workerMsgs := [], brk := false }) := by
  constructor
  · intro hok hrun
    refine ⟨rfl, ?_⟩
    have h1 : (regLookup stA.torrent_states magnet.parse_xt).isSome = true := by
      obtain ⟨-, hsts, -, -⟩ := add_torrent_ok_elim hok
      rw [hsts]
      simp [regLookup_regInsert_self]
    exact runMsgs_states_mono hrun h1
  · intro hrun huntouched
    have h0 : regLookup st'.torrent_states h = none := by
      rw [runMsgs_states_untouched hrun huntouched]
      rfl
    simp [handleMsg, h0]

/-- Witness: the admitted hash replies `Some`, an untouched hash replies
`None`. -/
theorem request_state_roundtrip_witness :
    (handleMsg cfg0 stAfterAdd (DaemonMsg.requestTorrentState mAA.parse_xt) =
        some { state := stAfterAdd, enqueued := []
               reply := some (regLookup stAfterAdd.torrent_states mAA.parse_xt)
               workerMsgs := [], brk := false } ∧
      (regLookup stAfterAdd.torrent_states mAA.parse_xt).isSome = true) ∧
      handleMsg cfg0 emptyDaemon (DaemonMsg.requestTorrentState hAA) =
        some { state := emptyDaemon, enqueued := [], reply := some none
               workerMsgs := [], brk := false } :=
  ⟨(request_state_some_after_admit_none_when_untouched cfg0 emptyDaemon
      stAfterAdd stAfterAdd emptyDaemon mAA [] [] hAA).1 rfl rfl,
   (request_state_some_after_admit_none_when_untouched cfg0 emptyDaemon
      stAfterAdd stAfterAdd emptyDaemon mAA [] [] hAA).2 rfl (by simp)⟩

/-- Claim C5: the control-wire codec round-trips: decoding the encoding
of any well-formed frame (20-byte info hashes, in-range fields, frame
length within the 16 MiB ceiling) yields the frame back. -/
theorem decode_encode_roundtrip (f : Message) (hw : wfMessageB f = true) :
    decode (encode f) = some f := by
  cases f with
  | newTorrent magnet =>
    simp only [wfMessageB, decide_eq_true_eq] at hw
    simp only [encode, encodePayload, decode]
    rw [takeExact_of_len (length_u32BE (magnet.length + 1))]
    simp only [readByte]
    rw [beVal_u32BE (by omega : magnet.length + 1 < 4294967296)]
    rw [if_neg (by omega), if_pos rfl]
    rfl
  | torrentState os =>
    cases os with
    | none => decide
    | some s =>
      simp only [wfMessageB, Bool.and_eq_true, decide_eq_true_eq] at hw
      obtain ⟨hwts, hlen⟩ := hw
      have h20 : s.info_hash.length = 20 := by
        have hx := hwts
        simp only [wfTorrentStateB, Bool.and_eq_true, decide_eq_true_eq] at hx
        exact hx.1.1.1.1.1.1.1.1
      have hlen2 : (1 :: encodeTorrentState s).length + 1 = 75 + s.name.length := by
        simp [length_encodeTorrentState h20]
        omega
      simp only [encode, encodePayload, decode]
      rw [hlen2]
      rw [takeExact_of_len (length_u32BE (75 + s.name.length))]
      simp only [readByte]
      rw [beVal_u32BE (by omega : 75 + s.name.length < 4294967296)]
      rw [if_neg (by omega), if_pos hlen2]
      simp only [decodeBody]
      rw [decodeTorrentState_encode hwts]
      rfl
  | requestTorrentState info_hash =>
    simp only [wfMessageB, decide_eq_true_eq] at hw
    simp only [encode, encodePayload, decode]
    rw [takeExact_of_len (length_u32BE (info_hash.length + 1))]
    simp only [readByte]
    rw [beVal_u32BE (by omega : info_hash.length + 1 < 4294967296)]
    rw [if_neg (by omega), if_pos rfl]
    simp only [decodeBody, hw, if_pos]
  | togglePause info_hash =>
    simp only [wfMessageB, decide_eq_true_eq] at hw
    simp only [encode, encodePayload, decode]
    rw [takeExact_of_len (length_u32BE (info_hash.length + 1))]
    simp only [readByte]
    rw [beVal_u32BE (by omega : info_hash.length + 1 < 4294967296)]
    rw [if_neg (by omega), if_pos rfl]
    simp only [decodeBody, hw, if_pos]
  | quit => decide
  | printTorrentStatus => decide

/-- Witness: the round-trip at a concrete `TorrentState` frame. -/
theorem decode_encode_roundtrip_witness :
    wfMessageB (Message.torrentState (some sWire)) = true ∧
      decode (encode (Message.torrentState (some sWire))) =
        some (Message.torrentState (some sWire)) :=
  ⟨by decide, decode_encode_roundtrip (Message.torrentState (some sWire))
    (by decide)⟩

end Vincenzo
